import Mathlib

/-!
Shallow embedding of the PM-TDD YAML spec runner.

The embedded program is the extended runner (the file with draft/active
statuses, failure screenshots and the status-partitioned exit policy);
the earlier minimal runner shares its `executeStep` dispatch and
fail-fast scenario loop.

Modelling conventions:
* The browser automation engine (Playwright) is an external collaborator;
  it is modelled as a structure of deterministic primitive operations,
  each returning `Except JsError Page`.  The file system plus YAML parse
  (`fs.readFileSync` composed with `yaml.parse`) is one `fs` field.
* JS values occurring in steps are the inductive `JsValue`; a JS object
  is its entry list in insertion order, so a step (a one-key YAML map in
  the intended format) is `List (String × JsValue)` and
  `Object.entries(step)[0]` is the head of that list.
* `runSpec` returns, besides its result, a trace of session-lifecycle
  events: a `launch` when the browser is launched, a `close` when
  `browser.close()` runs, and a `screenshot p` when the failure-path
  `page.screenshot` call is issued with path `p`.  Console logging and
  the `mkdirSync` bookkeeping are not traced (no claim concerns them).
* Machine integers: counts are `Nat`; overflow is irrelevant at these
  magnitudes and JS numbers are doubles counting upward from 0.
* The aggregation's `results[result.status]` lookup is modelled as:
  `"active"` and `"draft"` hit their buckets, any other string is an
  undefined lookup whose property access throws and is caught by the
  per-spec `catch` (keys inherited from `Object.prototype` such as
  `"constructor"` are not modelled).
-/

namespace PmTdd

/-- A JS value as it occurs in a parsed YAML step: `undefined`, a string,
a number, or an object given by its ordered entry list. -/
inductive JsValue where
  | undefined : JsValue
  | str : String → JsValue
  | num : Int → JsValue
  | obj : List (String × JsValue) → JsValue

/-- A step is a JS object, i.e. its ordered entry list.  The runner reads
only `Object.entries(step)[0]`. -/
abbrev Step := List (String × JsValue)

/-- Errors thrown by the runner or its collaborators.  The constructor
records the taxonomy; `unknownAction a` embeds
`new Error("Unknown action: " + a)`. -/
inductive JsError where
  | ioError : String → JsError
  | parseError : String → JsError
  | typeError : String → JsError
  | unknownAction : String → JsError
  | assertionError : String → JsError
  | engineError : String → JsError
deriving DecidableEq

/-- A browser page: its current URL (read synchronously by `page.url()`)
plus an abstract remainder of page state. -/
structure Page where
  url : String
  dom : Nat
deriving DecidableEq

/-- One scenario of a spec: a name and an ordered step list. -/
structure Scen where
  name : String
  steps : List Step

/-- A parsed spec document: `feature`, optional `status`, `scenarios`. -/
structure SpecDoc where
  feature : String
  status : Option String
  scenarios : List Scen

/-- The value returned by `runSpec`: pass/fail counts and the spec's
computed status string. -/
structure SpecResult where
  passed : Nat
  failed : Nat
  status : String
deriving DecidableEq

/-- One bucket of the run summary. -/
structure Counts where
  passed : Nat
  failed : Nat
deriving DecidableEq

/-- The run summary: cumulative counts keyed by status. -/
structure Results where
  active : Counts
  draft : Counts
deriving DecidableEq

/-- Session-lifecycle events traced by the runner model. -/
inductive Event where
  | launch : Event
  | close : Event
  | screenshot : String → Event
deriving DecidableEq

/-- The external collaborators: file loading plus the browser automation
primitives invoked by the dispatch table, each deterministic. -/
structure Engine where
  fs : String → Except JsError SpecDoc
  launch : Except JsError Unit
  newPage : Except JsError Page
  goto : JsValue → Page → Except JsError Page
  clickText : JsValue → Page → Except JsError Page
  clickSelector : JsValue → Page → Except JsError Page
  clickRole : String → JsValue → Page → Except JsError Page
  fill : JsValue → JsValue → Page → Except JsError Page
  fillByLabel : JsValue → JsValue → Page → Except JsError Page
  selectByLabel : JsValue → JsValue → Page → Except JsError Page
  check : JsValue → Page → Except JsError Page
  uncheck : JsValue → Page → Except JsError Page
  hover : JsValue → Page → Except JsError Page
  press : JsValue → Page → Except JsError Page
  waitTimeout : JsValue → Page → Except JsError Page
  waitForVisible : JsValue → Nat → Page → Except JsError Page
  waitForHidden : JsValue → Nat → Page → Except JsError Page
  isDisabled : JsValue → Page → Except JsError Bool
  isEnabled : JsValue → Page → Except JsError Bool
  screenshot : String → Page → Except JsError Page
  cwd : String

/-- JS property access `v.k`: a missing property or a non-object receiver
yields `undefined`. -/
def jsGet (v : JsValue) (k : String) : JsValue :=
  match v with
  | .obj fields =>
    match fields.lookup k with
    | some x => x
    | none => .undefined
  | _ => .undefined

/-- JS string coercion, as applied by `url.includes(value)` and template
literals. -/
def jsToString : JsValue → String
  | .undefined => "undefined"
  | .str s => s
  | .num n => toString n
  | .obj _ => "[object Object]"

/-- `String.prototype.includes`: exact, case-sensitive substring search
with no normalization. -/
def strIncludes (s sub : String) : Bool :=
  (List.range (s.length + 1)).any fun i => sub.toList.isPrefixOf (s.toList.drop i)

/-- `spec.status || 'draft'`: an absent (or falsy, i.e. empty-string)
status defaults to `"draft"`; any other string is kept as is. -/
def statusOf : Option String → String
  | none => "draft"
  | some s => if s = "" then "draft" else s

/-- Helper for `replaceWs`: collapse each maximal whitespace run to one
hyphen, tracking whether the current position is inside a run. -/
def collapseWsAux : Bool → List Char → List Char
  | _, [] => []
  | inRun, c :: rest =>
    if c.isWhitespace then
      if inRun then collapseWsAux true rest
      else '-' :: collapseWsAux true rest
    else c :: collapseWsAux false rest

/-- `name.replace(/\s+/g, '-')`: each maximal whitespace run becomes one
hyphen. -/
def replaceWs (s : String) : String := String.mk (collapseWsAux false s.toList)

/-- `String.prototype.toLowerCase`, modelled characterwise (faithful on
ASCII names). -/
def jsToLower (s : String) : String := String.map Char.toLower s

/-- The last `/`-separated component of a path, as `path.basename` with
no extension argument. -/
def jsBasename (p : String) : String := (p.splitOn "/").getLastD p

/-- `path.basename(p, ext)`: the last component, with `ext` stripped when
it is a proper suffix. -/
def basenameExt (p ext : String) : String :=
  let b := jsBasename p
  if b ≠ ext ∧ b.endsWith ext then b.dropRight ext.length else b

/-- `path.dirname`, for `/`-separated paths. -/
def dirname (p : String) : String :=
  let parts := p.splitOn "/"
  match parts with
  | [] => "."
  | [_] => "."
  | _ =>
    let front := parts.dropLast
    if front.all (fun x => x = "") then "/" else String.intercalate "/" front

/-- Path-segment normalization used by `path.join`: drop empty and `"."`
segments, let `".."` pop the previous real segment (kept at the front of
a relative path, dropped at the root of an absolute one). -/
def normSegsAux (abs : Bool) : List String → List String → List String
  | acc, [] => acc.reverse
  | acc, s :: rest =>
    if s = "" ∨ s = "." then normSegsAux abs acc rest
    else if s = ".." then
      match acc with
      | [] => if abs then normSegsAux abs [] rest else normSegsAux abs [".."] rest
      | t :: ts => if t = ".." then normSegsAux abs (s :: acc) rest else normSegsAux abs ts rest
    else normSegsAux abs (s :: acc) rest

/-- `path.join` on two arguments: concatenate and normalize. -/
def pathJoin (a b : String) : String :=
  let abs := a.startsWith "/"
  let norm := normSegsAux abs [] (a.splitOn "/" ++ b.splitOn "/")
  if norm.isEmpty then (if abs then "/" else ".")
  else (if abs then "/" else "") ++ String.intercalate "/" norm

/-- The screenshots directory of a spec run:
`path.join(path.dirname(specPath), '..', 'screenshots')`. -/
def screenshotDir (specPath : String) : String :=
  pathJoin (pathJoin (dirname specPath) "..") "screenshots"

/-- The failure-screenshot file name:
`basename(specPath, '.yaml') + '-' + name.replace(/\s+/g,'-').toLowerCase() + '.png'`. -/
def screenshotName (specPath scName : String) : String :=
  basenameExt specPath ".yaml" ++ "-" ++ jsToLower (replaceWs scName) ++ ".png"

/-- The full failure-screenshot path for a scenario of a spec. -/
def ssPath (specPath scName : String) : String :=
  pathJoin (screenshotDir specPath) (screenshotName specPath scName)

/-- The closed action set of the dispatch switch, in source order. -/
def supportedActions : List String :=
  ["goto", "click", "click_button", "click_link", "fill", "fill_field",
   "select", "check", "uncheck", "hover", "press", "wait", "wait_for",
   "assert_visible", "assert_hidden", "assert_url", "assert_enabled",
   "assert_disabled", "screenshot"]

/-- `executeStep(page, step)`: take the first entry of the step object and
dispatch on the action name through the switch.  An empty step makes the
destructuring of `Object.entries(step)[0]` throw a `TypeError`; an
unmatched action hits the `default` branch and throws
`Unknown action: <name>`. -/
def executeStep (eng : Engine) (page : Page) (step : Step) : Except JsError Page :=
  match step with
  | [] => .error (.typeError "Object.entries(step)[0] is undefined")
  | (action, value) :: _ =>
    if action = "goto" then eng.goto value page
    else if action = "click" then
      match value with
      | .str _ => eng.clickText value page
      | _ => eng.clickSelector (jsGet value "selector") page
    else if action = "click_button" then eng.clickRole "button" value page
    else if action = "click_link" then eng.clickRole "link" value page
    else if action = "fill" then eng.fill (jsGet value "selector") (jsGet value "value") page
    else if action = "fill_field" then eng.fillByLabel (jsGet value "label") (jsGet value "value") page
    else if action = "select" then eng.selectByLabel (jsGet value "label") (jsGet value "option") page
    else if action = "check" then eng.check value page
    else if action = "uncheck" then eng.uncheck value page
    else if action = "hover" then eng.hover value page
    else if action = "press" then eng.press value page
    else if action = "wait" then eng.waitTimeout value page
    else if action = "wait_for" then eng.waitForVisible value 10000 page
    else if action = "assert_visible" then eng.waitForVisible value 5000 page
    else if action = "assert_hidden" then eng.waitForHidden value 5000 page
    else if action = "assert_url" then
      if strIncludes page.url (jsToString value) then .ok page
      else .error (.assertionError
        ("URL \"" ++ page.url ++ "\" does not contain \"" ++ jsToString value ++ "\""))
    else if action = "assert_enabled" then
      match eng.isDisabled value page with
      | .error e => .error e
      | .ok true => .error (.assertionError ("Button \"" ++ jsToString value ++ "\" is disabled"))
      | .ok false => .ok page
    else if action = "assert_disabled" then
      match eng.isEnabled value page with
      | .error e => .error e
      | .ok true => .error (.assertionError ("Button \"" ++ jsToString value ++ "\" is enabled"))
      | .ok false => .ok page
    else if action = "screenshot" then
      eng.screenshot (pathJoin (pathJoin eng.cwd "screenshots") (jsToString value ++ ".png")) page
    else .error (.unknownAction action)

/-- The inner `for (const step of scenario.steps)` loop: run steps in
order, stopping at the first error.  Returns the list of steps actually
executed, the page after the last successful step, and the error if one
was thrown. -/
def runSteps (eng : Engine) : Page → List Step → List Step × Page × Option JsError
  | page, [] => ([], page, none)
  | page, s :: rest =>
    match executeStep eng page s with
    | .ok p =>
      match runSteps eng p rest with
      | (tr, pf, err) => (s :: tr, pf, err)
    | .error e => ([s], page, some e)

/-- One iteration of the scenario loop: run the steps; on success the
scenario passes; on the first error, call `page.screenshot` at the
derived path (traced as an event) and mark the scenario failed — unless
the screenshot call itself throws, which propagates out of `runSpec`. -/
def runScen (eng : Engine) (specPath : String) (page : Page) (sc : Scen) :
    List Event × Except JsError (Page × Bool) :=
  match runSteps eng page sc.steps with
  | (_, p, none) => ([], .ok (p, true))
  | (_, p, some _) =>
    let pth := ssPath specPath sc.name
    match eng.screenshot pth p with
    | .ok p2 => ([Event.screenshot pth], .ok (p2, false))
    | .error e => ([Event.screenshot pth], .error e)

/-- The `for (const scenario of spec.scenarios)` loop: accumulate
(passed, failed) counts, threading the page, and propagate any error
that escapes a scenario's failure handler. -/
def runScens (eng : Engine) (specPath : String) :
    Page → List Scen → List Event × Except JsError (Nat × Nat)
  | _, [] => ([], .ok (0, 0))
  | page, sc :: rest =>
    match runScen eng specPath page sc with
    | (tr, .error e) => (tr, .error e)
    | (tr, .ok (p, ok1)) =>
      match runScens eng specPath p rest with
      | (tr2, .error e) => (tr ++ tr2, .error e)
      | (tr2, .ok pf) =>
        (tr ++ tr2, .ok (if ok1 then (pf.1 + 1, pf.2) else (pf.1, pf.2 + 1)))

/-- `runSpec(specPath)`: load and parse the file, compute the status with
its default, launch the browser, open a page, run the scenarios, close
the browser, and return `{passed, failed, status}`.  There is no
`finally`: an error after a successful launch leaves the session open
(no `close` event) and rejects. -/
def runSpec (eng : Engine) (specPath : String) : List Event × Except JsError SpecResult :=
  match eng.fs specPath with
  | .error e => ([], .error e)
  | .ok spec =>
    let status := statusOf spec.status
    match eng.launch with
    | .error e => ([], .error e)
    | .ok _ =>
      match eng.newPage with
      | .error e => ([Event.launch], .error e)
      | .ok page =>
        match runScens eng specPath page spec.scenarios with
        | (tr, .error e) => (Event.launch :: tr, .error e)
        | (tr, .ok pf) => (Event.launch :: tr ++ [Event.close], .ok ⟨pf.1, pf.2, status⟩)

/-- The `catch` bookkeeping of `main`: one failure added to the draft
bucket. -/
def draftFailBump (r : Results) : Results :=
  { r with draft := ⟨r.draft.passed, r.draft.failed + 1⟩ }

/-- `results[result.status].passed += ...; results[result.status].failed += ...`:
the two known buckets accumulate; any other status string makes the
lookup undefined, the property access throws, and the enclosing `catch`
records one draft failure. -/
def addResult (r : Results) (res : SpecResult) : Results :=
  if res.status = "active" then
    { r with active := ⟨r.active.passed + res.passed, r.active.failed + res.failed⟩ }
  else if res.status = "draft" then
    { r with draft := ⟨r.draft.passed + res.passed, r.draft.failed + res.failed⟩ }
  else draftFailBump r

/-- One iteration of `main`'s spec loop: a rejected `runSpec` is caught
and counted as one draft failure; a result is accumulated by status. -/
def processOutcome (r : Results) : Except JsError SpecResult → Results
  | .error _ => draftFailBump r
  | .ok res => addResult r res

/-- The summary created empty at process start. -/
def initResults : Results := ⟨⟨0, 0⟩, ⟨0, 0⟩⟩

/-- `main`'s loop over the spec files, left to right. -/
def runMainAux (eng : Engine) : Results → List String → Results
  | r, [] => r
  | r, f :: rest => runMainAux eng (processOutcome r (runSpec eng f).2) rest

/-- The exit-code policy at the end of `main`, branch for branch:
active failures exit 1; draft failures alone exit 0; otherwise exit 0. -/
def exitCode (r : Results) : Nat :=
  if 0 < r.active.failed then 1
  else if 0 < r.draft.failed then 0
  else 0

/-- The summary produced by one invocation of `main` over `files`. -/
def mainRun (eng : Engine) (files : List String) : Results :=
  runMainAux eng initResults files

/-- The process exit code of one invocation of `main` over `files`. -/
def mainExit (eng : Engine) (files : List String) : Nat :=
  exitCode (mainRun eng files)

/-- The active-bucket failure contribution of one spec outcome. -/
def activeFailedOf : Except JsError SpecResult → Nat
  | .ok res => if res.status = "active" then res.failed else 0
  | .error _ => 0

/-- A fixed test page. -/
def pg0 : Page := ⟨"https://x.test/dashboard?tab=1", 0⟩

/-- A test engine on which every collaborator call succeeds and the spec
file holds one scenario with no steps. -/
def engOk : Engine where
  fs := fun _ => .ok ⟨"Feature", some "draft", [⟨"S", []⟩]⟩
  launch := .ok ()
  newPage := .ok pg0
  goto := fun _ p => .ok p
  clickText := fun _ p => .ok p
  clickSelector := fun _ p => .ok p
  clickRole := fun _ _ p => .ok p
  fill := fun _ _ p => .ok p
  fillByLabel := fun _ _ p => .ok p
  selectByLabel := fun _ _ p => .ok p
  check := fun _ p => .ok p
  uncheck := fun _ p => .ok p
  hover := fun _ p => .ok p
  press := fun _ p => .ok p
  waitTimeout := fun _ p => .ok p
  waitForVisible := fun _ _ p => .ok p
  waitForHidden := fun _ _ p => .ok p
  isDisabled := fun _ _ => .ok false
  isEnabled := fun _ _ => .ok false
  screenshot := fun _ p => .ok p
  cwd := "/proj"

/-- A test engine whose spec file fails to load. -/
def engBad : Engine := { engOk with fs := fun _ => .error (.ioError "ENOENT") }

/-- A test engine on which `browser.newPage()` rejects after a successful
launch. -/
def engNoPage : Engine := { engOk with newPage := .error (.engineError "browser crashed") }

/-- A test engine whose spec file declares the unknown status `pending`
and has one passing scenario. -/
def engPending : Engine := { engOk with fs := fun _ => .ok ⟨"F", some "pending", [⟨"s", []⟩]⟩ }

/-- A test engine whose spec file has no `status` field. -/
def engNoStatus : Engine := { engOk with fs := fun _ => .ok ⟨"F", none, [⟨"s", []⟩]⟩ }

/-- A step with an action outside the dispatch table. -/
def stepBad : Step := [("frobnicate", JsValue.str "x")]

/-- A well-formed navigation step. -/
def stepGoto : Step := [("goto", JsValue.str "https://x.test/login")]

/-! ### Helper lemmas -/

/-- A sum of naturals over a list is positive iff some element
contributes positively. -/
theorem sum_map_pos_iff {α : Type} (l : List α) (g : α → Nat) :
    0 < (l.map g).sum ↔ ∃ x ∈ l, 0 < g x := by
  induction l with
  | nil => simp
  | cons a t ih =>
    simp only [List.map_cons, List.sum_cons, List.mem_cons]
    rw [show (0 < g a + (t.map g).sum ↔ 0 < g a ∨ 0 < (t.map g).sum) by omega, ih]
    constructor
    · rintro (h | ⟨x, hx, hgx⟩)
      · exact ⟨a, Or.inl rfl, h⟩
      · exact ⟨x, Or.inr hx, hgx⟩
    · rintro ⟨x, rfl | hx, hgx⟩
      · exact Or.inl hgx
      · exact Or.inr ⟨x, hx, hgx⟩

/-- Accumulating one outcome adds exactly its active-bucket failure
contribution to `active.failed`. -/
theorem processOutcome_active_failed (r : Results) (o : Except JsError SpecResult) :
    (processOutcome r o).active.failed = r.active.failed + activeFailedOf o := by
  match o with
  | .error e => simp [processOutcome, draftFailBump, activeFailedOf]
  | .ok res =>
    simp only [processOutcome, addResult, activeFailedOf]
    by_cases h1 : res.status = "active"
    · simp [h1]
    · by_cases h2 : res.status = "draft" <;> simp [h1, h2, draftFailBump]

/-- The spec loop's final `active.failed` is the initial one plus the sum
of active-bucket failure contributions of the files' outcomes. -/
theorem runMainAux_active_failed (eng : Engine) :
    ∀ (files : List String) (r : Results),
      (runMainAux eng r files).active.failed
        = r.active.failed + (files.map fun f => activeFailedOf (runSpec eng f).2).sum := by
  intro files
  induction files with
  | nil => intro r; simp [runMainAux]
  | cons f rest ih =>
    intro r
    simp only [runMainAux, List.map_cons, List.sum_cons]
    rw [ih, processOutcome_active_failed]
    omega

/-- An outcome contributes positively to the active bucket iff it is a
completed result with status `active` and a positive failure count. -/
theorem activeFailedOf_pos_iff (o : Except JsError SpecResult) :
    0 < activeFailedOf o
      ↔ ∃ res, o = Except.ok res ∧ res.status = "active" ∧ 0 < res.failed := by
  match o with
  | .error e => simp [activeFailedOf]
  | .ok res =>
    simp only [activeFailedOf, Except.ok.injEq]
    constructor
    · intro hpos
      by_cases h : res.status = "active"
      · exact ⟨res, rfl, h, by simpa [h] using hpos⟩
      · simp [h] at hpos
    · rintro ⟨res2, rfl, hact, hpos⟩
      simpa [hact] using hpos

/-- The exit code depends only on the active bucket: the draft-failure
branch and the all-pass branch both exit 0. -/
theorem exitCode_eq_of_active (r1 r2 : Results) (h : r1.active.failed = r2.active.failed) :
    exitCode r1 = exitCode r2 := by
  simp only [exitCode, h]
  by_cases ha : 0 < r2.active.failed
  · simp [ha]
  · by_cases h1 : 0 < r1.draft.failed <;> by_cases h2 : 0 < r2.draft.failed <;>
      simp [ha, h1, h2]

/-- The exit code is 1 exactly when the active bucket recorded a
failure. -/
theorem exitCode_eq_one_iff (r : Results) :
    exitCode r = 1 ↔ 0 < r.active.failed := by
  simp only [exitCode]
  by_cases h : 0 < r.active.failed
  · simp [h]
  · by_cases h2 : 0 < r.draft.failed <;> simp [h, h2]

/-! ### Claim theorems -/

/-- C1.  For every invocation over a list of spec files, the process exit
code is 1 exactly when at least one spec run completed with status
`active` and one or more failed scenarios; draft results and load
failures (which only touch the draft bucket) never make it 1, and it is
0 whenever no active spec result records a failure. -/
theorem c1_exit_code_active_only (eng : Engine) (files : List String) :
    mainExit eng files = 1
      ↔ ∃ f ∈ files, ∃ res, (runSpec eng f).2 = Except.ok res
          ∧ res.status = "active" ∧ 0 < res.failed := by
  rw [mainExit, exitCode_eq_one_iff, mainRun, runMainAux_active_failed]
  simp only [initResults, Nat.zero_add, sum_map_pos_iff]
  constructor
  · rintro ⟨f, hf, hpos⟩
    exact ⟨f, hf, (activeFailedOf_pos_iff _).mp hpos⟩
  · rintro ⟨f, hf, hres⟩
    exact ⟨f, hf, (activeFailedOf_pos_iff _).mpr hres⟩

/-- C2, counterexample.  One spec file that fails to load: the failure is
counted in the draft bucket and the process exits 0, not 1 as the claim
requires. -/
theorem c2_counterexample :
    engBad.fs "a.yaml" = Except.error (JsError.ioError "ENOENT")
      ∧ mainExit engBad ["a.yaml"] = 0 ∧ mainExit engBad ["a.yaml"] ≠ 1 := by
  refine ⟨rfl, rfl, ?_⟩
  decide

/-- C2, amended.  A spec file that fails to load or parse is counted as
exactly one draft failure and leaves the exit code unchanged: the exit
code is 1 only when some active spec result has a failing scenario, and
0 otherwise. -/
theorem c2_amended (eng : Engine) (r : Results) (f : String) (files : List String)
    (e : JsError) (h : eng.fs f = Except.error e) :
    runMainAux eng r (f :: files) = runMainAux eng (draftFailBump r) files
      ∧ mainExit eng (f :: files) = mainExit eng files := by
  have hrs : runSpec eng f = ([], Except.error e) := by simp [runSpec, h]
  constructor
  · simp [runMainAux, hrs, processOutcome]
  · have key : (runMainAux eng initResults (f :: files)).active.failed
        = (runMainAux eng initResults files).active.failed := by
      simp only [runMainAux, hrs, processOutcome]
      rw [runMainAux_active_failed, runMainAux_active_failed]
      simp [draftFailBump, initResults]
    simp only [mainExit, mainRun]
    exact exitCode_eq_of_active _ _ key

/-- C2, witness for the amended theorem at a concrete failing load. -/
theorem c2_amended_witness :
    runMainAux engBad initResults ["a.yaml"] = runMainAux engBad (draftFailBump initResults) []
      ∧ mainExit engBad ["a.yaml"] = mainExit engBad [] :=
  c2_amended engBad initResults "a.yaml" [] (JsError.ioError "ENOENT") rfl

/-- C4.  A spec file whose load or parse throws is aborted wholesale: the
run of that file performs no session or screenshot activity and returns
the error, `main` adds exactly one failure to the draft bucket (the
declared status is never consulted — the file never parsed), and the
loop continues with the remaining spec files. -/
theorem c4_load_error_draft_bucket (eng : Engine) (r : Results) (f : String)
    (rest : List String) (e : JsError) (h : eng.fs f = Except.error e) :
    runSpec eng f = ([], Except.error e)
      ∧ runMainAux eng r (f :: rest) = runMainAux eng (draftFailBump r) rest := by
  have hrs : runSpec eng f = ([], Except.error e) := by simp [runSpec, h]
  exact ⟨hrs, by simp [runMainAux, hrs, processOutcome]⟩

/-- C4, witness at a concrete failing load followed by another file. -/
theorem c4_witness :
    runSpec engBad "a.yaml" = ([], Except.error (JsError.ioError "ENOENT"))
      ∧ runMainAux engBad initResults ["a.yaml", "b.yaml"]
        = runMainAux engBad (draftFailBump initResults) ["b.yaml"] :=
  c4_load_error_draft_bucket engBad initResults "a.yaml" ["b.yaml"] (JsError.ioError "ENOENT") rfl

/-- Running a step prefix to completion lets the remaining steps run from
the reached page, with the executed-step lists concatenating. -/
theorem runSteps_split (eng : Engine) :
    ∀ (pre : List Step) (page page1 : Page),
      runSteps eng page pre = (pre, page1, none) →
      ∀ (l tr2 : List Step) (p2 : Page) (e2 : Option JsError),
        runSteps eng page1 l = (tr2, p2, e2) →
        runSteps eng page (pre ++ l) = (pre ++ tr2, p2, e2) := by
  intro pre
  induction pre with
  | nil =>
    intro page page1 h l tr2 p2 e2 h2
    simp only [runSteps, Prod.mk.injEq] at h
    obtain ⟨-, hp, -⟩ := h
    subst hp
    simpa using h2
  | cons s pre2 ih =>
    intro page page1 h l tr2 p2 e2 h2
    cases hex : executeStep eng page s with
    | error e =>
      simp only [runSteps, hex, Prod.mk.injEq] at h
      exact absurd h.2.2 (by simp)
    | ok p =>
      rcases hrec : runSteps eng p pre2 with ⟨tr', pf', err'⟩
      simp only [runSteps, hex, hrec, Prod.mk.injEq, List.cons.injEq, true_and] at h
      obtain ⟨rfl, rfl, rfl⟩ := h
      have hres := ih p pf' hrec l tr2 p2 e2 h2
      simp only [List.cons_append, runSteps, hex, List.append_eq, hres]

/-- C3.  Within a scenario, execution halts at the first step that throws:
when a step prefix succeeds and the next step fails, the executed steps
are exactly that prefix plus the failing step (the steps after it are
never run), the scenario is recorded as exactly one failure — its
failure screenshot taken — and the scenario loop proceeds to the
remaining scenarios.  (The continuation assumes the failure screenshot
call itself succeeds; if it throws, the error escapes `runSpec`.) -/
theorem c3_fail_fast (eng : Engine) (sp : String) (page page1 page2 : Page)
    (pre post : List Step) (s : Step) (e : JsError) (scName : String) (rest : List Scen)
    (hpre : runSteps eng page pre = (pre, page1, none))
    (hfail : executeStep eng page1 s = Except.error e)
    (hshot : eng.screenshot (ssPath sp scName) page1 = Except.ok page2) :
    runSteps eng page (pre ++ s :: post) = (pre ++ [s], page1, some e)
      ∧ runScens eng sp page (⟨scName, pre ++ s :: post⟩ :: rest)
        = (Event.screenshot (ssPath sp scName) :: (runScens eng sp page2 rest).1,
           match (runScens eng sp page2 rest).2 with
           | .ok pf => .ok (pf.1, pf.2 + 1)
           | .error er => .error er) := by
  have hfailrun : runSteps eng page1 (s :: post) = ([s], page1, some e) := by
    simp [runSteps, hfail]
  have h1 : runSteps eng page (pre ++ s :: post) = (pre ++ [s], page1, some e) :=
    runSteps_split eng pre page page1 hpre (s :: post) [s] page1 (some e) hfailrun
  refine ⟨h1, ?_⟩
  rcases hrest : runScens eng sp page2 rest with ⟨tr2, out2⟩
  simp only [runScens, runScen, h1, hshot, hrest]
  cases out2 <;> simp

/-- C3, witness: a passing prefix, a failing step, an unexecuted step
after it, and an empty remainder of scenarios. -/
theorem c3_fail_fast_witness :
    runSteps engOk pg0 ([] ++ stepBad :: [stepGoto])
        = ([] ++ [stepBad], pg0, some (JsError.unknownAction "frobnicate"))
      ∧ runScens engOk "specs/a.yaml" pg0 (⟨"My Scenario", [] ++ stepBad :: [stepGoto]⟩ :: [])
        = (Event.screenshot (ssPath "specs/a.yaml" "My Scenario")
             :: (runScens engOk "specs/a.yaml" pg0 []).1,
           match (runScens engOk "specs/a.yaml" pg0 []).2 with
           | .ok pf => .ok (pf.1, pf.2 + 1)
           | .error er => .error er) :=
  c3_fail_fast engOk "specs/a.yaml" pg0 pg0 pg0 [] [stepGoto] stepBad
    (JsError.unknownAction "frobnicate") "My Scenario" [] rfl rfl rfl

/-- Every event traced by one scenario iteration is a screenshot. -/
theorem runScen_events (eng : Engine) (sp : String) (page : Page) (sc : Scen) (ev : Event)
    (h : ev ∈ (runScen eng sp page sc).1) : ∃ p, ev = Event.screenshot p := by
  rcases hr : runSteps eng page sc.steps with ⟨tr, pf, err⟩
  cases err with
  | none => simp [runScen, hr] at h
  | some e =>
    cases hs : eng.screenshot (ssPath sp sc.name) pf with
    | ok p2 =>
      simp only [runScen, hr, hs, List.mem_singleton] at h
      exact ⟨_, h⟩
    | error e2 =>
      simp only [runScen, hr, hs, List.mem_singleton] at h
      exact ⟨_, h⟩

/-- Every event traced by the scenario loop is a screenshot. -/
theorem runScens_events (eng : Engine) (sp : String) :
    ∀ (scs : List Scen) (page : Page) (ev : Event),
      ev ∈ (runScens eng sp page scs).1 → ∃ p, ev = Event.screenshot p := by
  intro scs
  induction scs with
  | nil => intro page ev h; simp [runScens] at h
  | cons sc rest ih =>
    intro page ev h
    rcases hsc : runScen eng sp page sc with ⟨tr, out⟩
    cases out with
    | error e =>
      simp only [runScens, hsc] at h
      exact runScen_events eng sp page sc ev (by rw [hsc]; exact h)
    | ok po =>
      rcases hrest : runScens eng sp po.1 rest with ⟨tr2, out2⟩
      have hmem : ev ∈ tr ++ tr2 := by
        cases out2 with
        | error e => simpa only [runScens, hsc, hrest] using h
        | ok pf => simpa only [runScens, hsc, hrest] using h
      rcases List.mem_append.mp hmem with hin | hin
      · exact runScen_events eng sp page sc ev (by rw [hsc]; exact hin)
      · exact ih po.1 ev (by rw [hrest]; exact hin)

/-- A trace of screenshot events contains no launch and no close. -/
theorem shots_count_zero :
    ∀ (l : List Event), (∀ ev ∈ l, ∃ p, ev = Event.screenshot p) →
      l.count Event.launch = 0 ∧ l.count Event.close = 0 := by
  intro l
  induction l with
  | nil => simp
  | cons a t ih =>
    intro h
    have ht := ih (fun ev hev => h ev (List.mem_cons_of_mem a hev))
    obtain ⟨p, rfl⟩ := h a (List.mem_cons_self a t)
    simp [List.count_cons, ht.1, ht.2]

/-- C5, counterexample.  With a successful launch followed by a rejected
`browser.newPage()`, the run ends in an irrecoverable error with the
session opened and never closed: there is no `finally`, so the claim's
"closed exactly once ... including on irrecoverable errors" fails. -/
theorem c5_counterexample :
    runSpec engNoPage "a.yaml"
        = ([Event.launch], Except.error (JsError.engineError "browser crashed"))
      ∧ ([Event.launch] : List Event).count Event.launch = 1
      ∧ ([Event.launch] : List Event).count Event.close = 0 :=
  ⟨rfl, rfl, rfl⟩

/-- C5, amended.  One browser session is opened per spec and closed
exactly once after that spec's scenarios complete, provided the run
completes without an irrecoverable error; when an error escapes (page
creation or failure-screenshot rejection), the session is not closed. -/
theorem c5_amended (eng : Engine) (sp : String) (tr : List Event) (res : SpecResult)
    (h : runSpec eng sp = (tr, Except.ok res)) :
    tr.count Event.launch = 1 ∧ tr.count Event.close = 1
      ∧ tr.getLast? = some Event.close := by
  cases hfs : eng.fs sp with
  | error e => simp [runSpec, hfs] at h
  | ok spec =>
    cases hl : eng.launch with
    | error e => simp [runSpec, hfs, hl] at h
    | ok u =>
      cases hnp : eng.newPage with
      | error e => simp [runSpec, hfs, hl, hnp] at h
      | ok page =>
        rcases hsc : runScens eng sp page spec.scenarios with ⟨tr0, out⟩
        cases out with
        | error e => simp [runSpec, hfs, hl, hnp, hsc] at h
        | ok pf =>
          simp only [runSpec, hfs, hl, hnp, hsc, Prod.mk.injEq] at h
          obtain ⟨htr, -⟩ := h
          subst htr
          have hz := shots_count_zero tr0
            (fun ev hev => runScens_events eng sp spec.scenarios page ev (by rw [hsc]; exact hev))
          refine ⟨?_, ?_, ?_⟩
          · simp [List.count_cons, List.count_append, hz.1]
          · simp [List.count_cons, List.count_append, hz.2]
          · exact List.getLast?_concat _

/-- C5, witness for the amended theorem: a clean run of one passing
scenario launches once and closes once, at the end. -/
theorem c5_amended_witness :
    ([Event.launch, Event.close] : List Event).count Event.launch = 1
      ∧ ([Event.launch, Event.close] : List Event).count Event.close = 1
      ∧ ([Event.launch, Event.close] : List Event).getLast? = some Event.close :=
  c5_amended engOk "specs/a.yaml" [Event.launch, Event.close] ⟨1, 0, "draft"⟩ rfl

/-- C6, counterexample.  A spec declaring the unknown status `pending` is
neither rejected nor defaulted: its result carries `pending` as is into
the aggregation step, whose bucket lookup then throws and the whole spec
— one passing scenario included — is recorded as a single draft
failure. -/
theorem c6_counterexample :
    (runSpec engPending "p.yaml").2 = Except.ok ⟨1, 0, "pending"⟩
      ∧ processOutcome initResults (Except.ok ⟨1, 0, "pending"⟩) = draftFailBump initResults
      ∧ "pending" ≠ "draft" ∧ "pending" ≠ "active" :=
  ⟨rfl, rfl, by decide, by decide⟩

/-- C6, amended.  An absent `status` is defaulted to `draft`; a status
outside the two known values is not validated: it is carried as is into
the aggregation, where the failed bucket lookup is caught and the spec
is recorded as one draft failure with its own counts discarded. -/
theorem c6_amended :
    (∀ (eng : Engine) (sp : String) (spec : SpecDoc) (res : SpecResult),
        eng.fs sp = Except.ok spec → spec.status = none →
        (runSpec eng sp).2 = Except.ok res → res.status = "draft")
      ∧ (∀ (r : Results) (p f : Nat) (s : String), s ≠ "active" → s ≠ "draft" →
          processOutcome r (Except.ok ⟨p, f, s⟩) = draftFailBump r) := by
  constructor
  · intro eng sp spec res hfs hst h
    cases hl : eng.launch with
    | error e => simp [runSpec, hfs, hl] at h
    | ok u =>
      cases hnp : eng.newPage with
      | error e => simp [runSpec, hfs, hl, hnp] at h
      | ok page =>
        rcases hsc : runScens eng sp page spec.scenarios with ⟨tr0, out⟩
        cases out with
        | error e => simp [runSpec, hfs, hl, hnp, hsc] at h
        | ok pf =>
          simp only [runSpec, hfs, hl, hnp, hsc, Except.ok.injEq] at h
          subst h
          simp [statusOf, hst]
  · intro r p f s h1 h2
    simp [processOutcome, addResult, h1, h2]

/-- C6, witness for the amended theorem: a status-less spec yields status
`draft`, and a `pending` result is folded as one draft failure. -/
theorem c6_amended_witness :
    (⟨1, 0, "draft"⟩ : SpecResult).status = "draft"
      ∧ processOutcome initResults (Except.ok ⟨2, 3, "pending"⟩) = draftFailBump initResults :=
  ⟨c6_amended.1 engNoStatus "n.yaml" ⟨"F", none, [⟨"s", []⟩]⟩ ⟨1, 0, "draft"⟩ rfl rfl rfl,
   c6_amended.2 initResults 2 3 "pending" (by decide) (by decide)⟩

/-- C7.  `assert_url` passes exactly when the current URL contains the
expected value as a literal substring — `strIncludes` is exact,
case-sensitive character comparison with no normalization — and
otherwise throws the assertion error naming both strings. -/
theorem c7_assert_url (eng : Engine) (page : Page) (v : String) :
    (executeStep eng page [("assert_url", JsValue.str v)] = Except.ok page
        ↔ strIncludes page.url v = true)
      ∧ executeStep eng page [("assert_url", JsValue.str v)]
        = (if strIncludes page.url v then Except.ok page
           else Except.error (JsError.assertionError
             ("URL \"" ++ page.url ++ "\" does not contain \"" ++ v ++ "\""))) := by
  have hstep : executeStep eng page [("assert_url", JsValue.str v)]
      = (if strIncludes page.url v then Except.ok page
         else Except.error (JsError.assertionError
           ("URL \"" ++ page.url ++ "\" does not contain \"" ++ v ++ "\""))) := rfl
  refine ⟨?_, hstep⟩
  rw [hstep]
  by_cases hinc : strIncludes page.url v <;> simp [hinc]

/-- C8.  Any action identifier outside the dispatch table, on any engine,
page and payload, throws the unknown-action error naming that
identifier — never a silent no-op. -/
theorem c8_unknown_action (eng : Engine) (page : Page) (a : String) (v : JsValue)
    (rest : List (String × JsValue)) (h : a ∉ supportedActions) :
    executeStep eng page ((a, v) :: rest) = Except.error (JsError.unknownAction a) := by
  simp only [supportedActions, List.mem_cons, List.not_mem_nil, or_false, not_or] at h
  obtain ⟨h1, h2, h3, h4, h5, h6, h7, h8, h9, h10,
    h11, h12, h13, h14, h15, h16, h17, h18, h19⟩ := h
  simp only [executeStep]
  rw [if_neg h1, if_neg h2, if_neg h3, if_neg h4, if_neg h5, if_neg h6, if_neg h7,
    if_neg h8, if_neg h9, if_neg h10, if_neg h11, if_neg h12, if_neg h13, if_neg h14,
    if_neg h15, if_neg h16, if_neg h17, if_neg h18, if_neg h19]

/-- C8, witness at the unrecognized action `foo`. -/
theorem c8_witness :
    executeStep engOk pg0 [("foo", JsValue.str "bar")]
      = Except.error (JsError.unknownAction "foo") :=
  c8_unknown_action engOk pg0 "foo" (JsValue.str "bar") [] (by decide)

/-- C9.  For every scenario whose step run throws, the failure handler
issues a full-page screenshot call whose path is derived
deterministically: the spec file's base name (extension stripped) joined
with the scenario name, whitespace runs replaced by hyphens and
lower-cased, under the screenshots directory derived from the spec
file's directory. -/
theorem c9_failure_screenshot (eng : Engine) (sp : String) (page : Page) (sc : Scen)
    (rest : List Scen) (e : JsError)
    (h : (runSteps eng page sc.steps).2.2 = some e) :
    Event.screenshot (ssPath sp sc.name) ∈ (runScens eng sp page (sc :: rest)).1
      ∧ ssPath sp sc.name
        = pathJoin (screenshotDir sp)
            (basenameExt sp ".yaml" ++ "-" ++ jsToLower (replaceWs sc.name) ++ ".png") := by
  refine ⟨?_, rfl⟩
  rcases hr : runSteps eng page sc.steps with ⟨tr, pf, err⟩
  rw [hr] at h
  obtain rfl : err = some e := h
  cases hs : eng.screenshot (ssPath sp sc.name) pf with
  | ok p2 =>
    rcases hrest : runScens eng sp p2 rest with ⟨tr2, out2⟩
    cases out2 <;> simp [runScens, runScen, hr, hs, hrest]
  | error e2 =>
    simp [runScens, runScen, hr, hs]

/-- A scenario whose only step uses an unknown action, for the C9
witness. -/
def scBad : Scen := ⟨"My Scenario", [stepBad]⟩

/-- C9, witness at a concrete failing scenario: the screenshot path for
`specs/login.yaml` and scenario `My Scenario`. -/
theorem c9_witness :
    Event.screenshot (ssPath "specs/login.yaml" "My Scenario")
        ∈ (runScens engOk "specs/login.yaml" pg0 (scBad :: [])).1
      ∧ ssPath "specs/login.yaml" "My Scenario"
        = pathJoin (screenshotDir "specs/login.yaml")
            (basenameExt "specs/login.yaml" ".yaml" ++ "-"
              ++ jsToLower (replaceWs "My Scenario") ++ ".png") :=
  c9_failure_screenshot engOk "specs/login.yaml" pg0 scBad []
    (JsError.unknownAction "frobnicate") rfl

/-- C10.  A step object with several entries behaves exactly like the
step holding only its first entry: `Object.entries(step)[0]` alone is
dispatched, the remaining entries are silently ignored and the step is
not rejected. -/
theorem c10_first_entry_only (eng : Engine) (page : Page) (kv : String × JsValue)
    (rest : List (String × JsValue)) :
    executeStep eng page (kv :: rest) = executeStep eng page [kv] := by
  obtain ⟨a, v⟩ := kv
  rfl

end PmTdd
